import Mathlib

/-!
Verification development for the Open-OTP library (src/index.js).

The JavaScript source is shallowly embedded: bytes are `Nat` values kept
below 256 by explicit `% 256`, machine words are `Nat` with explicit
`% 2^32` or `% 2^64`, JavaScript 32-bit bitwise operators are modelled on
`Int` with explicit ToInt32/ToUint32 conversions, and fallible operations
return `Except`.  The node `crypto` HMAC backend and the `thirty-two`
base32 codec are external dependencies of the repository; they are
modelled here by executable reference implementations of HMAC-SHA1/
SHA256/SHA512 (FIPS 180-4 / FIPS 198-1) and RFC 4648 base32/base64,
which is the behaviour the spec ascribes to them.
-/

/-! ## Bit-level utilities -/

/-- Value of a big-endian bit list (most significant bit first). -/
def bitsToNum (bs : List Bool) : Nat :=
  bs.foldl (fun a b => 2 * a + (if b then 1 else 0)) 0

/-- Big-endian bit list of length `k` for the value `n` (low `k` bits of `n`). -/
def numBits (k n : Nat) : List Bool :=
  (List.range k).map (fun i => n.testBit (k - 1 - i))

/-- Split a list into consecutive chunks of length `n` (the last chunk may be
shorter).  Structural recursion on a fuel argument so that the definition
reduces definitionally. -/
def chunkGo (n : Nat) : Nat → List α → List (List α)
  | 0, _ => []
  | _, [] => []
  | fuel + 1, l => l.take n :: chunkGo n fuel (l.drop n)

/-- Split a list into consecutive chunks of length `n`. -/
def chunkList (n : Nat) (l : List α) : List (List α) :=
  chunkGo n l.length l

/-- Big-endian byte serialization: the `k` bytes of `n`, most significant
first, each reduced `% 256`. -/
def natBytesBE : Nat → Nat → List Nat
  | 0, _ => []
  | k + 1, n => ((n >>> (8 * k)) % 256) :: natBytesBE k n

/-- Big-endian word of a byte chunk (bytes reduced `% 256` as in a Buffer). -/
def wordOfBytes (chunk : List Nat) : Nat :=
  chunk.foldl (fun a b => a * 256 + b % 256) 0

/-! ## RFC 4648 base32 and base64 codecs

These model the external `thirty-two` base32 codec and node's
`Buffer.toString` base64 on the inputs exercised by the library. -/

/-- Character for a 5-bit base32 value: `A`-`Z` for 0-25, `2`-`7` for 26-31. -/
def b32Char (v : Nat) : Char :=
  if v < 26 then Char.ofNat (65 + v) else Char.ofNat (24 + v)

/-- Numeric value of a base32 alphabet character. -/
def b32Val (c : Char) : Nat :=
  if 65 ≤ c.toNat ∧ c.toNat ≤ 90 then c.toNat - 65
  else if 50 ≤ c.toNat ∧ c.toNat ≤ 55 then c.toNat - 24
  else 0

/-- RFC 4648 base32 encoding: 5-bit groups of the input bits (the last group
right-padded with zero bits), then `=` padding to a multiple of 8 output
characters. -/
def base32Encode (bytes : List Nat) : List Char :=
  let bits := bytes.flatMap (numBits 8)
  let data := (chunkList 5 bits).map
    (fun g => b32Char (bitsToNum g * 2 ^ (5 - g.length)))
  data ++ List.replicate ((8 - data.length % 8) % 8) '='

/-- Base32 decoding on validated input: drop `=` padding, concatenate the
5-bit values and keep every full byte, discarding leftover bits. -/
def base32DecodeBytes (cs : List Char) : List Nat :=
  let bits := (cs.filter (fun c => c ≠ '=')).flatMap (fun c => numBits 5 (b32Val c))
  (chunkList 8 bits).filterMap
    (fun g => if g.length = 8 then some (bitsToNum g) else none)

/-- Character for a 6-bit base64 value (standard alphabet). -/
def b64Char (v : Nat) : Char :=
  if v < 26 then Char.ofNat (65 + v)
  else if v < 52 then Char.ofNat (71 + v)
  else if v < 62 then Char.ofNat (v - 4)
  else if v = 62 then '+' else '/'

/-- RFC 4648 base64 encoding with `=` padding (node `Buffer.toString`). -/
def base64Encode (bytes : List Nat) : List Char :=
  let bits := bytes.flatMap (numBits 8)
  let data := (chunkList 6 bits).map
    (fun g => b64Char (bitsToNum g * 2 ^ (6 - g.length)))
  data ++ List.replicate ((4 - data.length % 4) % 4) '='

/-! ## SHA-1 (FIPS 180-4) -/

/-- Rotate a 32-bit word left by `k`. -/
def rotl32 (k x : Nat) : Nat := ((x <<< k) ||| (x >>> (32 - k))) % 4294967296

/-- Bitwise complement of a 32-bit word. -/
def not32 (x : Nat) : Nat := (x % 4294967296) ^^^ 4294967295

/-- Five-word SHA-1 working state. -/
structure H5 where
  a : Nat
  b : Nat
  c : Nat
  d : Nat
  e : Nat
deriving DecidableEq

/-- SHA-1 initial hash value. -/
def sha1IV : H5 := ⟨1732584193, 4023233417, 2562383102, 271733878, 3285377520⟩

/-- SHA-1 round function, by round group. -/
def sha1F (i b c d : Nat) : Nat :=
  if i < 20 then (b &&& c) ||| (not32 b &&& d)
  else if i < 40 then b ^^^ c ^^^ d
  else if i < 60 then (b &&& c) ||| (b &&& d) ||| (c &&& d)
  else b ^^^ c ^^^ d

/-- SHA-1 round constant, by round group. -/
def sha1K (i : Nat) : Nat :=
  if i < 20 then 1518500249
  else if i < 40 then 1859775393
  else if i < 60 then 2400959708
  else 3395469782

/-- Message-schedule expansion: `acc` holds the words produced so far in
reverse order; each step prepends `rotl1 (w[t-3] xor w[t-8] xor w[t-14] xor w[t-16])`. -/
def sha1WsGo : List Nat → Nat → List Nat
  | acc, 0 => acc.reverse
  | acc, n + 1 =>
      sha1WsGo
        (rotl32 1 (acc.getD 2 0 ^^^ acc.getD 7 0 ^^^ acc.getD 13 0 ^^^ acc.getD 15 0) :: acc) n

/-- The 80 SHA-1 schedule words of a block. -/
def sha1Ws (w16 : List Nat) : List Nat := sha1WsGo w16.reverse 64

/-- One SHA-1 round: input is the round index paired with the schedule word. -/
def sha1Step (st : H5) (iw : Nat × Nat) : H5 :=
  let t := (rotl32 5 st.a + sha1F iw.1 st.b st.c st.d + st.e + sha1K iw.1 + iw.2) % 4294967296
  ⟨t, st.a, rotl32 30 st.b, st.c, st.d⟩

/-- Compress one 64-byte block into the state. -/
def sha1Block (st : H5) (block : List Nat) : H5 :=
  let ws := sha1Ws ((chunkList 4 block).map wordOfBytes)
  let r := ws.enum.foldl sha1Step st
  ⟨(st.a + r.a) % 4294967296, (st.b + r.b) % 4294967296, (st.c + r.c) % 4294967296,
   (st.d + r.d) % 4294967296, (st.e + r.e) % 4294967296⟩

/-- Merkle-Damgard padding with a 64-bit big-endian bit-length field,
to a multiple of 64 bytes. -/
def padTo64 (msg : List Nat) : List Nat :=
  msg ++ 128 :: List.replicate ((119 - msg.length % 64) % 64) 0 ++ natBytesBE 8 (8 * msg.length)

/-- SHA-1 digest (20 bytes) of a byte string. -/
def sha1Bytes (msg : List Nat) : List Nat :=
  let st := (chunkList 64 (padTo64 msg)).foldl sha1Block sha1IV
  natBytesBE 4 st.a ++ natBytesBE 4 st.b ++ natBytesBE 4 st.c ++
    natBytesBE 4 st.d ++ natBytesBE 4 st.e

/-! ## SHA-256 (FIPS 180-4) -/

/-- Rotate a 32-bit word right by `k`. -/
def rotr32 (k x : Nat) : Nat := ((x >>> k) ||| (x <<< (32 - k))) % 4294967296

/-- Eight-word SHA-256/SHA-512 working state. -/
structure H8 where
  a : Nat
  b : Nat
  c : Nat
  d : Nat
  e : Nat
  f : Nat
  g : Nat
  h : Nat
deriving DecidableEq

/-- SHA-256 initial hash value. -/
def sha256IV : H8 :=
  ⟨1779033703, 3144134277, 1013904242, 2773480762, 1359893119, 2600822924, 528734635, 1541459225⟩

/-- The 64 SHA-256 round constants. -/
def sha256Ks : List Nat :=
  [1116352408, 1899447441, 3049323471, 3921009573, 961987163, 1508970993,
   2453635748, 2870763221, 3624381080, 310598401, 607225278, 1426881987,
   1925078388, 2162078206, 2614888103, 3248222580, 3835390401, 4022224774,
   264347078, 604807628, 770255983, 1249150122, 1555081692, 1996064986,
   2554220882, 2821834349, 2952996808, 3210313671, 3336571891, 3584528711,
   113926993, 338241895, 666307205, 773529912, 1294757372, 1396182291,
   1695183700, 1986661051, 2177026350, 2456956037, 2730485921, 2820302411,
   3259730800, 3345764771, 3516065817, 3600352804, 4094571909, 275423344,
   430227734, 506948616, 659060556, 883997877, 958139571, 1322822218,
   1537002063, 1747873779, 1955562222, 2024104815, 2227730452, 2361852424,
   2428436474, 2756734187, 3204031479, 3329325298]

/-- SHA-256 small sigma 0. -/
def s256s0 (x : Nat) : Nat := rotr32 7 x ^^^ rotr32 18 x ^^^ (x >>> 3)

/-- SHA-256 small sigma 1. -/
def s256s1 (x : Nat) : Nat := rotr32 17 x ^^^ rotr32 19 x ^^^ (x >>> 10)

/-- SHA-256 big sigma 0. -/
def s256b0 (x : Nat) : Nat := rotr32 2 x ^^^ rotr32 13 x ^^^ rotr32 22 x

/-- SHA-256 big sigma 1. -/
def s256b1 (x : Nat) : Nat := rotr32 6 x ^^^ rotr32 11 x ^^^ rotr32 25 x

/-- SHA-256 schedule expansion, accumulating in reverse. -/
def sha256WsGo : List Nat → Nat → List Nat
  | acc, 0 => acc.reverse
  | acc, n + 1 =>
      sha256WsGo
        (((s256s1 (acc.getD 1 0) + acc.getD 6 0 + s256s0 (acc.getD 14 0) + acc.getD 15 0)
          % 4294967296) :: acc) n

/-- The 64 SHA-256 schedule words of a block. -/
def sha256Ws (w16 : List Nat) : List Nat := sha256WsGo w16.reverse 48

/-- One SHA-256 round: input is the round constant paired with the schedule word. -/
def sha256Step (st : H8) (kw : Nat × Nat) : H8 :=
  let ch := (st.e &&& st.f) ^^^ (not32 st.e &&& st.g)
  let maj := (st.a &&& st.b) ^^^ (st.a &&& st.c) ^^^ (st.b &&& st.c)
  let t1 := (st.h + s256b1 st.e + ch + kw.1 + kw.2) % 4294967296
  let t2 := (s256b0 st.a + maj) % 4294967296
  ⟨(t1 + t2) % 4294967296, st.a, st.b, st.c, (st.d + t1) % 4294967296, st.e, st.f, st.g⟩

/-- Compress one 64-byte block into the state. -/
def sha256Block (st : H8) (block : List Nat) : H8 :=
  let ws := sha256Ws ((chunkList 4 block).map wordOfBytes)
  let r := (sha256Ks.zip ws).foldl sha256Step st
  ⟨(st.a + r.a) % 4294967296, (st.b + r.b) % 4294967296, (st.c + r.c) % 4294967296,
   (st.d + r.d) % 4294967296, (st.e + r.e) % 4294967296, (st.f + r.f) % 4294967296,
   (st.g + r.g) % 4294967296, (st.h + r.h) % 4294967296⟩

/-- SHA-256 digest (32 bytes) of a byte string. -/
def sha256Bytes (msg : List Nat) : List Nat :=
  let st := (chunkList 64 (padTo64 msg)).foldl sha256Block sha256IV
  natBytesBE 4 st.a ++ natBytesBE 4 st.b ++ natBytesBE 4 st.c ++ natBytesBE 4 st.d ++
    natBytesBE 4 st.e ++ natBytesBE 4 st.f ++ natBytesBE 4 st.g ++ natBytesBE 4 st.h

/-! ## SHA-512 (FIPS 180-4) -/

/-- Rotate a 64-bit word right by `k`. -/
def rotr64 (k x : Nat) : Nat := ((x >>> k) ||| (x <<< (64 - k))) % 18446744073709551616

/-- Bitwise complement of a 64-bit word. -/
def not64 (x : Nat) : Nat := (x % 18446744073709551616) ^^^ 18446744073709551615

/-- SHA-512 initial hash value. -/
def sha512IV : H8 :=
  ⟨7640891576956012808, 13503953896175478587, 4354685564936845355, 11912009170470909681,
   5840696475078001361, 11170449401992604703, 2270897969802886507, 6620516959819538809⟩

/-- The 80 SHA-512 round constants. -/
def sha512Ks : List Nat :=
  [4794697086780616226, 8158064640168781261, 13096744586834688815,
   16840607885511220156, 4131703408338449720, 6480981068601479193,
   10538285296894168987, 12329834152419229976, 15566598209576043074,
   1334009975649890238, 2608012711638119052, 6128411473006802146,
   8268148722764581231, 9286055187155687089, 11230858885718282805,
   13951009754708518548, 16472876342353939154, 17275323862435702243,
   1135362057144423861, 2597628984639134821, 3308224258029322869,
   5365058923640841347, 6679025012923562964, 8573033837759648693,
   10970295158949994411, 12119686244451234320, 12683024718118986047,
   13788192230050041572, 14330467153632333762, 15395433587784984357,
   489312712824947311, 1452737877330783856, 2861767655752347644,
   3322285676063803686, 5560940570517711597, 5996557281743188959,
   7280758554555802590, 8532644243296465576, 9350256976987008742,
   10552545826968843579, 11727347734174303076, 12113106623233404929,
   14000437183269869457, 14369950271660146224, 15101387698204529176,
   15463397548674623760, 17586052441742319658, 1182934255886127544,
   1847814050463011016, 2177327727835720531, 2830643537854262169,
   3796741975233480872, 4115178125766777443, 5681478168544905931,
   6601373596472566643, 7507060721942968483, 8399075790359081724,
   8693463985226723168, 9568029438360202098, 10144078919501101548,
   10430055236837252648, 11840083180663258601, 13761210420658862357,
   14299343276471374635, 14566680578165727644, 15097957966210449927,
   16922976911328602910, 17689382322260857208, 500013540394364858,
   748580250866718886, 1242879168328830382, 1977374033974150939,
   2944078676154940804, 3659926193048069267, 4368137639120453308,
   4836135668995329356, 5532061633213252278, 6448918945643986474,
   6902733635092675308, 7801388544844847127]

/-- SHA-512 small sigma 0. -/
def s512s0 (x : Nat) : Nat := rotr64 1 x ^^^ rotr64 8 x ^^^ (x >>> 7)

/-- SHA-512 small sigma 1. -/
def s512s1 (x : Nat) : Nat := rotr64 19 x ^^^ rotr64 61 x ^^^ (x >>> 6)

/-- SHA-512 big sigma 0. -/
def s512b0 (x : Nat) : Nat := rotr64 28 x ^^^ rotr64 34 x ^^^ rotr64 39 x

/-- SHA-512 big sigma 1. -/
def s512b1 (x : Nat) : Nat := rotr64 14 x ^^^ rotr64 18 x ^^^ rotr64 41 x

/-- SHA-512 schedule expansion, accumulating in reverse. -/
def sha512WsGo : List Nat → Nat → List Nat
  | acc, 0 => acc.reverse
  | acc, n + 1 =>
      sha512WsGo
        (((s512s1 (acc.getD 1 0) + acc.getD 6 0 + s512s0 (acc.getD 14 0) + acc.getD 15 0)
          % 18446744073709551616) :: acc) n

/-- The 80 SHA-512 schedule words of a block. -/
def sha512Ws (w16 : List Nat) : List Nat := sha512WsGo w16.reverse 64

/-- One SHA-512 round: input is the round constant paired with the schedule word. -/
def sha512Step (st : H8) (kw : Nat × Nat) : H8 :=
  let ch := (st.e &&& st.f) ^^^ (not64 st.e &&& st.g)
  let maj := (st.a &&& st.b) ^^^ (st.a &&& st.c) ^^^ (st.b &&& st.c)
  let t1 := (st.h + s512b1 st.e + ch + kw.1 + kw.2) % 18446744073709551616
  let t2 := (s512b0 st.a + maj) % 18446744073709551616
  ⟨(t1 + t2) % 18446744073709551616, st.a, st.b, st.c,
   (st.d + t1) % 18446744073709551616, st.e, st.f, st.g⟩

/-- Compress one 128-byte block into the state. -/
def sha512Block (st : H8) (block : List Nat) : H8 :=
  let ws := sha512Ws ((chunkList 8 block).map wordOfBytes)
  let r := (sha512Ks.zip ws).foldl sha512Step st
  ⟨(st.a + r.a) % 18446744073709551616, (st.b + r.b) % 18446744073709551616,
   (st.c + r.c) % 18446744073709551616, (st.d + r.d) % 18446744073709551616,
   (st.e + r.e) % 18446744073709551616, (st.f + r.f) % 18446744073709551616,
   (st.g + r.g) % 18446744073709551616, (st.h + r.h) % 18446744073709551616⟩

/-- Merkle-Damgard padding with a 128-bit big-endian bit-length field,
to a multiple of 128 bytes. -/
def padTo128 (msg : List Nat) : List Nat :=
  msg ++ 128 :: List.replicate ((239 - msg.length % 128) % 128) 0 ++
    natBytesBE 16 (8 * msg.length)

/-- SHA-512 digest (64 bytes) of a byte string. -/
def sha512Bytes (msg : List Nat) : List Nat :=
  let st := (chunkList 128 (padTo128 msg)).foldl sha512Block sha512IV
  natBytesBE 8 st.a ++ natBytesBE 8 st.b ++ natBytesBE 8 st.c ++ natBytesBE 8 st.d ++
    natBytesBE 8 st.e ++ natBytesBE 8 st.f ++ natBytesBE 8 st.g ++ natBytesBE 8 st.h

/-! ## HMAC (FIPS 198-1), modelling node crypto createHmac -/

/-- HMAC over an abstract hash with the given block size: a key longer than a
block is hashed first, then zero-padded to the block size; the digest is
`hash (k0 xor opad ++ hash (k0 xor ipad ++ msg))`. -/
def hmacWith (hash : List Nat → List Nat) (blockSize : Nat) (key msg : List Nat) : List Nat :=
  let kh := if blockSize < key.length then hash key else key
  let k0 := kh ++ List.replicate (blockSize - kh.length) 0
  hash ((k0.map (fun b => b ^^^ 92)) ++ hash ((k0.map (fun b => b ^^^ 54)) ++ msg))

/-- Hash algorithms accepted by the engine configuration. -/
inductive HashAlg where
  | sha1
  | sha256
  | sha512
deriving DecidableEq

/-- HMAC digest for a configured algorithm (the node crypto backend). -/
def hmacDigest : HashAlg → List Nat → List Nat → List Nat
  | .sha1 => hmacWith sha1Bytes 64
  | .sha256 => hmacWith sha256Bytes 64
  | .sha512 => hmacWith sha512Bytes 128

/-! ## JavaScript 32-bit bitwise operators

The truncation step of the source uses the operators `&`, `<<`, `|`, `%` on
JavaScript numbers.  The bitwise ones coerce their operands with ToInt32 /
ToUint32 and work on 32-bit two's complement; they are modelled on `Int`
with those coercions explicit. -/

/-- ECMAScript ToUint32. -/
def toUint32 (x : Int) : Nat := (x % 4294967296).toNat

/-- ECMAScript ToInt32. -/
def toInt32 (x : Int) : Int :=
  let u := toUint32 x
  if u < 2147483648 then (u : Int) else (u : Int) - 4294967296

/-- JavaScript bitwise and on numbers. -/
def jsAnd (a b : Int) : Int := toInt32 ((toUint32 a &&& toUint32 b : Nat))

/-- JavaScript bitwise or on numbers. -/
def jsOr (a b : Int) : Int := toInt32 ((toUint32 a ||| toUint32 b : Nat))

/-- JavaScript left shift on numbers (shift count taken mod 32). -/
def jsShl (a b : Int) : Int := toInt32 ((toUint32 a <<< (toUint32 b % 32) : Nat))

/-! ## The TOTP engine (src/index.js) -/

/-- Exceptions the library can raise: the library's own InvalidSecretError,
the TypeError of verifyTOTP's input check, and node's RangeError raised by
writeBigUInt64BE when the counter is outside the unsigned 64-bit range. -/
inductive JSError where
  | invalidSecret
  | typeError
  | rangeError
deriving DecidableEq

/-- Fields stored by the TOTP constructor.  Note the secret is retained as
TEXT (this.secret = secret), not in decoded form. -/
structure TOTPState where
  secret : String
  window : Nat
  interval : Nat
  otpLength : Nat
  algorithm : HashAlg
deriving DecidableEq

/-- Character class `[A-Z2-7]` of the validation regex. -/
def isB32Char (c : Char) : Bool :=
  (65 ≤ c.toNat && c.toNat ≤ 90) || (50 ≤ c.toNat && c.toNat ≤ 55)

/-- TOTP._isValidSecret: the test of the regex `^[A-Z2-7]+=*$` (one or more
alphabet characters followed by zero or more `=`).  Since `=` is not in the
character class, matching is equivalent to: nonempty, the maximal leading
run of alphabet characters is followed only by `=`. -/
def TOTP.isValidSecret (secret : String) : Bool :=
  match secret.data with
  | [] => false
  | c :: _ => isB32Char c && (secret.data.dropWhile isB32Char).all (fun c => c == '=')

/-- The TOTP constructor: validate the secret text, then store the five
fields unchanged. -/
def TOTP.create (secret : String) (window interval otpLength : Nat) (algorithm : HashAlg) :
    Except JSError TOTPState :=
  if TOTP.isValidSecret secret then
    .ok ⟨secret, window, interval, otpLength, algorithm⟩
  else
    .error .invalidSecret

/-- Dynamic truncation and reduction, exactly as written in the source
(lines 60-65): JavaScript bitwise operators on the digest bytes, an
out-of-range index reading as 0 (undefined coerces to 0 under ToInt32),
then the JavaScript remainder (truncated; both operands nonnegative here). -/
def jsTruncate (digest : List Nat) (len : Nat) : Int :=
  let offset := digest.getD (digest.length - 1) 0 &&& 15
  let binaryCode :=
    jsOr (jsOr (jsOr (jsShl (jsAnd (digest.getD offset 0) 127) 24)
                     (jsShl (jsAnd (digest.getD (offset + 1) 0) 255) 16))
               (jsShl (jsAnd (digest.getD (offset + 2) 0) 255) 8))
         (jsAnd (digest.getD (offset + 3) 0) 255)
  Int.tmod binaryCode (10 ^ len)

/-- The derivation keyed by raw secret bytes: HMAC the 8 counter bytes and
truncate.  TOTP._generateTOTP always reaches this through a fresh base32
decode of the stored secret text. -/
def hotpKeyed (key : List Nat) (alg : HashAlg) (len counter : Nat) : Int :=
  jsTruncate (hmacDigest alg key (natBytesBE 8 counter)) len

/-- The body of TOTP._generateTOTP after the counter has been serialized:
decode the stored secret text (this happens on every call), HMAC, truncate. -/
def hotpBody (e : TOTPState) (counter : Nat) : Int :=
  hotpKeyed (base32DecodeBytes e.secret.data) e.algorithm e.otpLength counter

/-- TOTP._generateTOTP: `buffer.writeBigUInt64BE(counter)` raises a
RangeError unless `0 <= counter < 2^64`; otherwise the derivation of
`hotpBody` runs on the serialized counter. -/
def TOTP._generateTOTP (e : TOTPState) (counter : Int) : Except JSError Int :=
  if 0 ≤ counter ∧ counter < 18446744073709551616 then
    .ok (hotpBody e counter.toNat)
  else
    .error .rangeError

/-- Counter computation shared by generateTOTP and verifyTOTP:
`Math.floor(Date.now() / 1000 / interval)` as exact natural division.
The model covers the spec's configuration domain of positive integer
intervals (for interval 0 the JavaScript expression is Infinity and
BigInt conversion throws; time-dependent theorems below therefore carry
an interval hypothesis). -/
def currentCounter (e : TOTPState) (nowMs : Nat) : Nat :=
  nowMs / 1000 / e.interval

/-- TOTP.generateTOTP: derive at the counter of the current time. -/
def TOTP.generateTOTP (e : TOTPState) (nowMs : Nat) : Except JSError Int :=
  TOTP._generateTOTP e ((currentCounter e nowMs : Nat) : Int)

/-- Verification verdict object `{success, message}`. -/
structure VerifyResult where
  success : Bool
  message : String
deriving DecidableEq

/-- Argument passed to verifyTOTP: a string, or any non-string value
(null, undefined, a number, ...), which `typeof inputOTP !== 'string'`
rejects uniformly. -/
inductive JSInput where
  | str (s : String)
  | nonString
deriving DecidableEq

/-- The test of the regex `^\d+$`: one or more decimal digits. -/
def isDigitString (s : String) : Bool :=
  !s.data.isEmpty && s.data.all (fun c => 48 ≤ c.toNat && c.toNat ≤ 57)

/-- parseInt(s, 10) on an all-digit string, as an exact natural number.
(The float rounding of the real parseInt cannot change any comparison
against an HOTP value, which is below 2^31.) -/
def parseDec (s : String) : Nat :=
  s.data.foldl (fun a c => 10 * a + (c.toNat - 48)) 0

/-- The loop of verifyTOTP: try the counters `cc + i` for the offsets `i`
in order, short-circuiting on the first match; propagate a RangeError of
the derivation. -/
def verifyScan (e : TOTPState) (cc : Int) (parsed : Nat) : List Int → Except JSError VerifyResult
  | [] => .ok ⟨false, "Invalid TOTP"⟩
  | i :: rest =>
    match TOTP._generateTOTP e (cc + i) with
    | .error err => .error err
    | .ok otp =>
      if (parsed : Int) = otp then .ok ⟨true, "TOTP verified"⟩
      else verifyScan e cc parsed rest

/-- The offsets `-window, ..., 0, ..., +window` in increasing order. -/
def windowOffsets (w : Nat) : List Int :=
  (List.range (2 * w + 1)).map (fun j : Nat => (j : Int) - (w : Int))

/-- TOTP.verifyTOTP: reject non-strings and non-digit strings with a
TypeError, then scan the window around the current counter. -/
def TOTP.verifyTOTP (e : TOTPState) (nowMs : Nat) (input : JSInput) :
    Except JSError VerifyResult :=
  match input with
  | .nonString => .error .typeError
  | .str s =>
    if isDigitString s then
      verifyScan e ((currentCounter e nowMs : Nat) : Int) (parseDec s) (windowOffsets e.window)
    else .error .typeError

/-- generateSecret: base64-encode the random bytes (crypto.randomBytes(10)
.toString('base64')), append the optional label, and base32-encode the
bytes of the resulting string. -/
def generateSecret (randomBytes labelBytes : List Nat) : String :=
  ⟨base32Encode ((base64Encode randomBytes).map Char.toNat ++ labelBytes)⟩

/-! ## Reference definitions written from the specification -/

/-- Modelled from the spec: dynamic truncation as the specification words
it, in pure natural-number arithmetic: `offset = last byte and 0x0F`,
assemble the 31-bit `code32` from 4 bytes at `offset`, and reduce mod
`10^codeLength`.  To be compared with the engine's derivation. -/
def rfcTruncate (digest : List Nat) (len : Nat) : Nat :=
  let offset := digest.getD (digest.length - 1) 0 &&& 15
  let code32 :=
    ((digest.getD offset 0 &&& 127) <<< 24) |||
      ((digest.getD (offset + 1) 0 &&& 255) <<< 16) |||
      ((digest.getD (offset + 2) 0 &&& 255) <<< 8) |||
      (digest.getD (offset + 3) 0 &&& 255)
  code32 % 10 ^ len

/-- Modelled from the spec: the complete RFC 4226 reference derivation the
claims compare the engine against. -/
def rfcHotp (e : TOTPState) (counter : Nat) : Nat :=
  rfcTruncate (hmacDigest e.algorithm (base32DecodeBytes e.secret.data) (natBytesBE 8 counter))
    e.otpLength

/-- Modelled from the spec: what claim C9 asserts generateSecret returns,
namely the base32 encoding of the random bytes themselves followed by the
label bytes, with no intermediate re-encoding. -/
def specGenerateSecret (randomBytes labelBytes : List Nat) : String :=
  ⟨base32Encode (randomBytes ++ labelBytes)⟩

/-! ## Decidability -/

instance {ε α : Type} [DecidableEq ε] [DecidableEq α] : DecidableEq (Except ε α) := fun x y =>
  match x, y with
  | .ok a, .ok b =>
    if h : a = b then isTrue (congrArg _ h) else isFalse (fun hh => h (Except.ok.inj hh))
  | .ok _, .error _ => isFalse (fun hh => Except.noConfusion hh)
  | .error _, .ok _ => isFalse (fun hh => Except.noConfusion hh)
  | .error a, .error b =>
    if h : a = b then isTrue (congrArg _ h) else isFalse (fun hh => h (Except.error.inj hh))

set_option maxRecDepth 1000000

/-! ## The JavaScript bitwise operators agree with natural-number
arithmetic on bounded values -/

theorem toUint32_natCast (n : Nat) (h : n < 4294967296) : toUint32 (n : Int) = n := by
  unfold toUint32
  omega

theorem toInt32_natCast (n : Nat) (h : n < 2147483648) : toInt32 (n : Int) = n := by
  have h32 : n < 4294967296 := by omega
  simp [toInt32, toUint32_natCast n h32, h]

theorem jsAnd_natCast (a b : Nat) (ha : a < 4294967296) (hb : b < 4294967296)
    (hr : a &&& b < 2147483648) :
    jsAnd (a : Int) (b : Int) = ((a &&& b : Nat) : Int) := by
  simp [jsAnd, toUint32_natCast a ha, toUint32_natCast b hb, toInt32_natCast _ hr]

theorem jsShl_natCast (a k : Nat) (ha : a < 4294967296) (hk : k < 32)
    (hr : a <<< k < 2147483648) :
    jsShl (a : Int) (k : Int) = ((a <<< k : Nat) : Int) := by
  have hk32 : k < 4294967296 := by omega
  simp [jsShl, toUint32_natCast a ha, toUint32_natCast k hk32, Nat.mod_eq_of_lt hk,
    toInt32_natCast _ hr]

theorem jsOr_natCast (a b : Nat) (ha : a < 2147483648) (hb : b < 2147483648) :
    jsOr (a : Int) (b : Int) = ((a ||| b : Nat) : Int) := by
  have hr : a ||| b < 2147483648 := Nat.or_lt_two_pow (n := 31) ha hb
  simp [jsOr, toUint32_natCast a (by omega), toUint32_natCast b (by omega),
    toInt32_natCast _ hr]

/-! ## Digest bytes are bytes -/

theorem natBytesBE_lt (k n : Nat) : ∀ b ∈ natBytesBE k n, b < 256 := by
  induction k generalizing n with
  | zero => simp [natBytesBE]
  | succ k ih =>
    intro b hb
    simp only [natBytesBE, List.mem_cons] at hb
    rcases hb with h | h
    · omega
    · exact ih n b h

theorem sha1Bytes_lt (msg : List Nat) : ∀ b ∈ sha1Bytes msg, b < 256 := by
  intro b hb
  simp only [sha1Bytes, List.mem_append] at hb
  rcases hb with ((((h | h) | h) | h) | h) <;> exact natBytesBE_lt _ _ b h

theorem sha256Bytes_lt (msg : List Nat) : ∀ b ∈ sha256Bytes msg, b < 256 := by
  intro b hb
  simp only [sha256Bytes, List.mem_append] at hb
  rcases hb with (((((((h | h) | h) | h) | h) | h) | h) | h) <;> exact natBytesBE_lt _ _ b h

theorem sha512Bytes_lt (msg : List Nat) : ∀ b ∈ sha512Bytes msg, b < 256 := by
  intro b hb
  simp only [sha512Bytes, List.mem_append] at hb
  rcases hb with (((((((h | h) | h) | h) | h) | h) | h) | h) <;> exact natBytesBE_lt _ _ b h

theorem hmacDigest_lt (alg : HashAlg) (key msg : List Nat) :
    ∀ b ∈ hmacDigest alg key msg, b < 256 := by
  cases alg with
  | sha1 => exact sha1Bytes_lt _
  | sha256 => exact sha256Bytes_lt _
  | sha512 => exact sha512Bytes_lt _

theorem getD_lt_256 {l : List Nat} (h : ∀ b ∈ l, b < 256) (i : Nat) : l.getD i 0 < 256 := by
  rw [List.getD_eq_getElem?_getD]
  rcases hv : l[i]? with _ | v
  · simp
  · simpa using h v (List.getElem?_mem hv)

/-! ## The JavaScript truncation equals the RFC truncation -/

theorem jsTruncate_eq_rfcTruncate (digest : List Nat) (hd : ∀ b ∈ digest, b < 256)
    (len : Nat) : jsTruncate digest len = ((rfcTruncate digest len : Nat) : Int) := by
  simp only [jsTruncate, rfcTruncate]
  have h0 := getD_lt_256 hd (digest.getD (digest.length - 1) 0 &&& 15)
  have h1 := getD_lt_256 hd ((digest.getD (digest.length - 1) 0 &&& 15) + 1)
  have h2 := getD_lt_256 hd ((digest.getD (digest.length - 1) 0 &&& 15) + 2)
  have h3 := getD_lt_256 hd ((digest.getD (digest.length - 1) 0 &&& 15) + 3)
  set offset := digest.getD (digest.length - 1) 0 &&& 15 with hoff
  set d0 := digest.getD offset 0 with hd0
  set d1 := digest.getD (offset + 1) 0 with hd1
  set d2 := digest.getD (offset + 2) 0 with hd2
  set d3 := digest.getD (offset + 3) 0 with hd3
  have ha0 : d0 &&& 127 ≤ 127 := Nat.and_le_right
  have ha1 : d1 &&& 255 ≤ 255 := Nat.and_le_right
  have ha2 : d2 &&& 255 ≤ 255 := Nat.and_le_right
  have ha3 : d3 &&& 255 ≤ 255 := Nat.and_le_right
  have hs0 : (d0 &&& 127) <<< 24 < 2147483648 := by
    rw [Nat.shiftLeft_eq]; omega
  have hs1 : (d1 &&& 255) <<< 16 < 2147483648 := by
    rw [Nat.shiftLeft_eq]; omega
  have hs2 : (d2 &&& 255) <<< 8 < 2147483648 := by
    rw [Nat.shiftLeft_eq]; omega
  have e0 : jsAnd (d0 : Int) 127 = ((d0 &&& 127 : Nat) : Int) := by
    exact_mod_cast jsAnd_natCast d0 127 (by omega) (by omega) (by omega)
  have e1 : jsAnd (d1 : Int) 255 = ((d1 &&& 255 : Nat) : Int) := by
    exact_mod_cast jsAnd_natCast d1 255 (by omega) (by omega) (by omega)
  have e2 : jsAnd (d2 : Int) 255 = ((d2 &&& 255 : Nat) : Int) := by
    exact_mod_cast jsAnd_natCast d2 255 (by omega) (by omega) (by omega)
  have e3 : jsAnd (d3 : Int) 255 = ((d3 &&& 255 : Nat) : Int) := by
    exact_mod_cast jsAnd_natCast d3 255 (by omega) (by omega) (by omega)
  have f0 : jsShl ((d0 &&& 127 : Nat) : Int) 24 = (((d0 &&& 127) <<< 24 : Nat) : Int) := by
    exact_mod_cast jsShl_natCast (d0 &&& 127) 24 (by omega) (by omega) hs0
  have f1 : jsShl ((d1 &&& 255 : Nat) : Int) 16 = (((d1 &&& 255) <<< 16 : Nat) : Int) := by
    exact_mod_cast jsShl_natCast (d1 &&& 255) 16 (by omega) (by omega) hs1
  have f2 : jsShl ((d2 &&& 255 : Nat) : Int) 8 = (((d2 &&& 255) <<< 8 : Nat) : Int) := by
    exact_mod_cast jsShl_natCast (d2 &&& 255) 8 (by omega) (by omega) hs2
  have g01 : jsOr (((d0 &&& 127) <<< 24 : Nat) : Int) (((d1 &&& 255) <<< 16 : Nat) : Int) =
      (((d0 &&& 127) <<< 24 ||| (d1 &&& 255) <<< 16 : Nat) : Int) :=
    jsOr_natCast _ _ hs0 hs1
  have hb01 : (d0 &&& 127) <<< 24 ||| (d1 &&& 255) <<< 16 < 2147483648 :=
    Nat.or_lt_two_pow (n := 31) hs0 hs1
  have g012 : jsOr (((d0 &&& 127) <<< 24 ||| (d1 &&& 255) <<< 16 : Nat) : Int)
      (((d2 &&& 255) <<< 8 : Nat) : Int) =
      (((d0 &&& 127) <<< 24 ||| (d1 &&& 255) <<< 16 ||| (d2 &&& 255) <<< 8 : Nat) : Int) :=
    jsOr_natCast _ _ hb01 hs2
  have hb012 : (d0 &&& 127) <<< 24 ||| (d1 &&& 255) <<< 16 ||| (d2 &&& 255) <<< 8
      < 2147483648 := Nat.or_lt_two_pow (n := 31) hb01 hs2
  have g0123 : jsOr
      (((d0 &&& 127) <<< 24 ||| (d1 &&& 255) <<< 16 ||| (d2 &&& 255) <<< 8 : Nat) : Int)
      ((d3 &&& 255 : Nat) : Int) =
      (((d0 &&& 127) <<< 24 ||| (d1 &&& 255) <<< 16 ||| (d2 &&& 255) <<< 8 |||
        (d3 &&& 255) : Nat) : Int) :=
    jsOr_natCast _ _ hb012 (by omega)
  rw [e0, e1, e2, e3, f0, f1, f2, g01, g012, g0123]
  rw [show ((10 : Int) ^ len) = ((10 ^ len : Nat) : Int) by push_cast; ring]
  exact (Int.ofNat_tmod _ _).symm

/-! ## Characterization of the verification scan -/

theorem verifyScan_eq (e : TOTPState) (cc : Int) (parsed : Nat) (l : List Int)
    (hok : ∀ i ∈ l, 0 ≤ cc + i ∧ cc + i < 18446744073709551616) :
    verifyScan e cc parsed l =
      .ok (if ∃ i ∈ l, (parsed : Int) = hotpBody e (cc + i).toNat
           then ⟨true, "TOTP verified"⟩ else ⟨false, "Invalid TOTP"⟩) := by
  induction l with
  | nil => simp [verifyScan]
  | cons i rest ih =>
    have hgen : TOTP._generateTOTP e (cc + i) = .ok (hotpBody e (cc + i).toNat) := by
      rw [TOTP._generateTOTP, if_pos (hok i (List.mem_cons_self i rest))]
    simp only [verifyScan, hgen]
    by_cases hm : (parsed : Int) = hotpBody e (cc + i).toNat
    · simp [hm]
    · rw [if_neg hm, ih (fun j hj => hok j (List.mem_cons_of_mem _ hj))]
      by_cases hex : ∃ j ∈ rest, (parsed : Int) = hotpBody e (cc + j).toNat
      · simp [hex, hm]
      · simp [hex, hm]

theorem mem_windowOffsets (w : Nat) (i : Int) :
    i ∈ windowOffsets w ↔ -(w : Int) ≤ i ∧ i ≤ (w : Int) := by
  constructor
  · intro hi
    obtain ⟨j, hj, hji⟩ := List.mem_map.mp hi
    have hj2 : j < 2 * w + 1 := List.mem_range.mp hj
    have hji2 : (j : Int) - (w : Int) = i := hji
    omega
  · intro h
    refine List.mem_map.mpr ⟨(i + w).toNat, List.mem_range.mpr (by omega), ?_⟩
    show (((i + (w : Int)).toNat : Nat) : Int) - (w : Int) = i
    omega

theorem verifyTOTP_str_eq (e : TOTPState) (nowMs : Nat) (s : String)
    (hd : isDigitString s = true)
    (hw : e.window ≤ currentCounter e nowMs)
    (hhi : currentCounter e nowMs + e.window < 18446744073709551616) :
    TOTP.verifyTOTP e nowMs (.str s) =
      .ok (if ∃ i ∈ windowOffsets e.window,
              (parseDec s : Int) = hotpBody e (((currentCounter e nowMs : Nat) : Int) + i).toNat
           then ⟨true, "TOTP verified"⟩ else ⟨false, "Invalid TOTP"⟩) := by
  simp only [TOTP.verifyTOTP, hd, if_true]
  exact verifyScan_eq e _ _ _ (fun i hi => by
    rw [mem_windowOffsets] at hi
    omega)

theorem verifyScan_no_invalidSecret (e : TOTPState) (cc : Int) (parsed : Nat) (l : List Int) :
    verifyScan e cc parsed l ≠ .error .invalidSecret := by
  induction l with
  | nil => simp [verifyScan]
  | cons i rest ih =>
    simp only [verifyScan]
    rcases hg : TOTP._generateTOTP e (cc + i) with err | otp
    · have : err = .rangeError := by
        rw [TOTP._generateTOTP] at hg
        split at hg
        · exact absurd hg (by simp)
        · exact (Except.error.inj hg).symm
      simp [this]
    · by_cases hm : (parsed : Int) = otp
      · simp [hm]
      · simpa [hm] using ih

/-! ## Shared concrete engines -/

/-- Engine with the base32 encoding of the full 20-byte RFC 6238 SHA-1
test secret, 8 digits. -/
def vectorEngine8 : TOTPState := ⟨"GEZDGNBVGY3TQOJQGEZDGNBVGY3TQOJQ", 0, 30, 8, .sha1⟩

/-- Engine with the secret text the specification names for the RFC 6238
vector (it decodes to the 10 bytes of ASCII 1234567890). -/
def specEngine8 : TOTPState := ⟨"GEZDGNBVGY3TQOJQ", 0, 30, 8, .sha1⟩

/-- A window-1 six-digit engine. -/
def demoEngine : TOTPState := ⟨"JBSWY3DPEHPK3PXP", 1, 30, 6, .sha1⟩

/-- A window-0 one-digit engine. -/
def shortEngine : TOTPState := ⟨"JBSWY3DPEHPK3PXP", 0, 30, 1, .sha1⟩

/-- A window-0 six-digit engine. -/
def basicEngine : TOTPState := ⟨"JBSWY3DPEHPK3PXP", 0, 30, 6, .sha1⟩

/-! ## Claim C1 -/

/-- C1: for every counter in the unsigned 64-bit range and every engine
configuration, the private derivation equals the RFC 4226 reference
definition (8-byte big-endian counter, HMAC with the configured hash,
dynamic truncation, reduction mod 10^codeLength), and the result lies in
[0, 10^codeLength). -/
theorem generate_matches_rfc (e : TOTPState) (counter : Int)
    (h0 : 0 ≤ counter) (h1 : counter < 18446744073709551616) :
    TOTP._generateTOTP e counter = .ok ((rfcHotp e counter.toNat : Nat) : Int) ∧
      rfcHotp e counter.toNat < 10 ^ e.otpLength := by
  constructor
  · rw [TOTP._generateTOTP, if_pos ⟨h0, h1⟩, hotpBody, hotpKeyed, rfcHotp,
      jsTruncate_eq_rfcTruncate _ (hmacDigest_lt _ _ _)]
  · simp only [rfcHotp, rfcTruncate]
    exact Nat.mod_lt _ (by positivity)

theorem generate_matches_rfc_witness :
    TOTP._generateTOTP vectorEngine8 1 = .ok ((rfcHotp vectorEngine8 1 : Nat) : Int) ∧
      rfcHotp vectorEngine8 1 < 10 ^ vectorEngine8.otpLength :=
  generate_matches_rfc vectorEngine8 1 (by decide) (by decide)

/-! ## Claim C2 -/

/-- C2 counterexample: with the secret text the specification names,
SHA-1, 30-second interval, 8 digits, the derivation at counter 1 returns
13263420, not the published vector 94287082 (the named secret decodes to
the 10-byte key 1234567890, not the 20-byte RFC test key). -/
theorem rfc6238_vector_counterexample :
    TOTP._generateTOTP specEngine8 1 = .ok 13263420 ∧ (13263420 : Int) ≠ 94287082 :=
  ⟨by decide, by decide⟩

/-- C2 (amended): with the base32 encoding of the full 20-byte RFC 6238
test secret, the derivation at counter 1 returns the published vector
94287082. -/
theorem rfc6238_vector_amended :
    TOTP._generateTOTP vectorEngine8 1 = .ok 94287082 := by decide

/-! ## Claim C3 -/

/-- C3 counterexample: at a real time whose counter is smaller than the
window (here time 0, window 1), verifyTOTP on a digit string throws
(RangeError from serializing the negative counter) instead of returning a
verdict. -/
theorem verify_throws_at_epoch :
    demoEngine.window = 1 ∧ isDigitString "123" = true ∧
      TOTP.verifyTOTP demoEngine 0 (.str "123") = .error .rangeError :=
  ⟨by decide, by decide, by decide⟩

/-- C3 (amended): for a digit-string input, provided the window does not
reach below counter 0 nor beyond 2^64, verifyTOTP returns a verdict (it
does not throw): success with message TOTP verified exactly when some
offset in [-window, window] derives the parsed value, and failure with
message Invalid TOTP exactly when no offset does.  The loop tries offsets
in increasing order and stops at the first match. -/
theorem verify_window_scan (e : TOTPState) (nowMs : Nat) (s : String)
    (_hi : 1 ≤ e.interval)
    (hd : isDigitString s = true)
    (hw : e.window ≤ currentCounter e nowMs)
    (hhi : currentCounter e nowMs + e.window < 18446744073709551616) :
    (∃ r : VerifyResult, TOTP.verifyTOTP e nowMs (.str s) = .ok r) ∧
    (TOTP.verifyTOTP e nowMs (.str s) = .ok ⟨true, "TOTP verified"⟩ ↔
      ∃ i : Int, -(e.window : Int) ≤ i ∧ i ≤ (e.window : Int) ∧
        (parseDec s : Int) = hotpBody e (((currentCounter e nowMs : Nat) : Int) + i).toNat) ∧
    (TOTP.verifyTOTP e nowMs (.str s) = .ok ⟨false, "Invalid TOTP"⟩ ↔
      ∀ i : Int, -(e.window : Int) ≤ i → i ≤ (e.window : Int) →
        (parseDec s : Int) ≠ hotpBody e (((currentCounter e nowMs : Nat) : Int) + i).toNat) := by
  rw [verifyTOTP_str_eq e nowMs s hd hw hhi]
  by_cases hex : ∃ i ∈ windowOffsets e.window,
      (parseDec s : Int) = hotpBody e (((currentCounter e nowMs : Nat) : Int) + i).toNat
  · rw [if_pos hex]
    obtain ⟨i, hi, hv⟩ := hex
    rw [mem_windowOffsets] at hi
    refine ⟨⟨_, rfl⟩, ?_, ?_⟩
    · constructor
      · intro _
        exact ⟨i, hi.1, hi.2, hv⟩
      · intro _
        rfl
    · constructor
      · intro h
        simp at h
      · intro hall
        exact absurd hv (hall i hi.1 hi.2)
  · rw [if_neg hex]
    refine ⟨⟨_, rfl⟩, ?_, ?_⟩
    · constructor
      · intro h
        simp at h
      · rintro ⟨i, h1, h2, hv⟩
        exact absurd ⟨i, (mem_windowOffsets _ _).mpr ⟨h1, h2⟩, hv⟩ hex
    · constructor
      · intro _ i h1 h2 hv
        exact hex ⟨i, (mem_windowOffsets _ _).mpr ⟨h1, h2⟩, hv⟩
      · intro _
        rfl

theorem verify_window_scan_witness :
    (∃ r : VerifyResult, TOTP.verifyTOTP basicEngine 60000 (.str "602287") = .ok r) ∧
    (TOTP.verifyTOTP basicEngine 60000 (.str "602287") = .ok ⟨true, "TOTP verified"⟩ ↔
      ∃ i : Int, -(basicEngine.window : Int) ≤ i ∧ i ≤ (basicEngine.window : Int) ∧
        (parseDec "602287" : Int) =
          hotpBody basicEngine (((currentCounter basicEngine 60000 : Nat) : Int) + i).toNat) ∧
    (TOTP.verifyTOTP basicEngine 60000 (.str "602287") = .ok ⟨false, "Invalid TOTP"⟩ ↔
      ∀ i : Int, -(basicEngine.window : Int) ≤ i → i ≤ (basicEngine.window : Int) →
        (parseDec "602287" : Int) ≠
          hotpBody basicEngine (((currentCounter basicEngine 60000 : Nat) : Int) + i).toNat) :=
  verify_window_scan basicEngine 60000 "602287" (by decide) (by decide) (by decide) (by decide)

/-! ## Claim C4 -/

/-- C4 counterexample: generate at time 0 yields the code of counter 0; a
window-1 engine asked to verify that code at time 0 (whose counter 0 lies
inside [0-1, 0+1]) throws a RangeError instead of succeeding, because the
scan starts at counter -1. -/
theorem roundtrip_fails_at_epoch :
    TOTP.generateTOTP demoEngine 0 = .ok 282760 ∧
    (((currentCounter demoEngine 0 : Nat) : Int) - (demoEngine.window : Int)
        ≤ ((currentCounter demoEngine 0 : Nat) : Int) ∧
      ((currentCounter demoEngine 0 : Nat) : Int)
        ≤ ((currentCounter demoEngine 0 : Nat) : Int) + (demoEngine.window : Int)) ∧
    TOTP.verifyTOTP demoEngine 0 (.str "282760") = .error .rangeError :=
  ⟨by decide, by decide, by decide⟩

/-- C4 (amended): if generate at a real time with counter k returns code c,
then verify of a digit string with value c, at a real time whose counter
lies in [k-w, k+w], succeeds, provided the scanned window stays within the
unsigned 64-bit counter range (w at most the verify-time counter). -/
theorem generate_verify_roundtrip (e : TOTPState) (tGen tVer : Nat) (c : Int) (s : String)
    (_hi : 1 ≤ e.interval)
    (hgen : TOTP.generateTOTP e tGen = .ok c)
    (hs : isDigitString s = true)
    (hval : (parseDec s : Int) = c)
    (hw : e.window ≤ currentCounter e tVer)
    (hhi : currentCounter e tVer + e.window < 18446744073709551616)
    (hlo : (currentCounter e tGen : Int) - (e.window : Int) ≤ (currentCounter e tVer : Int))
    (hup : (currentCounter e tVer : Int) ≤ (currentCounter e tGen : Int) + (e.window : Int)) :
    TOTP.verifyTOTP e tVer (.str s) = .ok ⟨true, "TOTP verified"⟩ := by
  have hk : ((currentCounter e tGen : Nat) : Int) < 18446744073709551616 := by omega
  have hgen2 : TOTP.generateTOTP e tGen =
      .ok (hotpBody e (((currentCounter e tGen : Nat) : Int)).toNat) := by
    rw [TOTP.generateTOTP, TOTP._generateTOTP, if_pos ⟨Int.natCast_nonneg _, hk⟩]
  have hc : c = hotpBody e (((currentCounter e tGen : Nat) : Int)).toNat :=
    Except.ok.inj (hgen.symm.trans hgen2)
  rw [verifyTOTP_str_eq e tVer s hs hw hhi]
  have hex : ∃ i ∈ windowOffsets e.window,
      (parseDec s : Int) = hotpBody e (((currentCounter e tVer : Nat) : Int) + i).toNat := by
    refine ⟨(currentCounter e tGen : Int) - (currentCounter e tVer : Int),
      (mem_windowOffsets _ _).mpr ⟨by omega, by omega⟩, ?_⟩
    have harg : (((currentCounter e tVer : Nat) : Int) +
        ((currentCounter e tGen : Int) - (currentCounter e tVer : Int))).toNat
        = ((currentCounter e tGen : Nat) : Int).toNat := by omega
    rw [harg, hval, hc]
  rw [if_pos hex]

theorem generate_verify_roundtrip_witness :
    TOTP.verifyTOTP demoEngine 30000 (.str "602287") = .ok ⟨true, "TOTP verified"⟩ :=
  generate_verify_roundtrip demoEngine 60000 30000 602287 "602287" (by decide) (by decide)
    (by decide) (by decide) (by decide) (by decide) (by decide) (by decide)

/-! ## Claim C5 -/

/-- C5 counterexample: a window-0 one-digit engine for which the codes of
counters 2 and 3 collide; the code generated at time 60s (counter 2, one
interval in the past) is accepted when verified at time 90s (counter 3). -/
theorem window_zero_cex :
    shortEngine.window = 0 ∧
    TOTP.generateTOTP shortEngine 60000 = .ok 7 ∧
    currentCounter shortEngine 90000 = currentCounter shortEngine 60000 + 1 ∧
    TOTP.verifyTOTP shortEngine 90000 (.str "7") = .ok ⟨true, "TOTP verified"⟩ :=
  ⟨by decide, by decide, by decide, by decide⟩

/-- C5 (amended): with window 0, verify accepts exactly the inputs whose
parsed value equals the code of the current counter; a code generated for
an adjacent counter is rejected precisely when its value differs from the
current code (as it does except for rare value collisions). -/
theorem window_zero_exact (e : TOTPState) (nowMs : Nat) (s : String)
    (_hi : 1 ≤ e.interval)
    (hw : e.window = 0) (hd : isDigitString s = true)
    (hhi : currentCounter e nowMs < 18446744073709551615) :
    (TOTP.verifyTOTP e nowMs (.str s) = .ok ⟨true, "TOTP verified"⟩ ↔
      (parseDec s : Int) = hotpBody e (currentCounter e nowMs)) ∧
    ((parseDec s : Int) ≠ hotpBody e (currentCounter e nowMs) →
      TOTP.verifyTOTP e nowMs (.str s) = .ok ⟨false, "Invalid TOTP"⟩) := by
  have h0 : e.window ≤ currentCounter e nowMs := by omega
  have hhi2 : currentCounter e nowMs + e.window < 18446744073709551616 := by omega
  rw [verifyTOTP_str_eq e nowMs s hd h0 hhi2]
  have hiff : (∃ i ∈ windowOffsets e.window,
      (parseDec s : Int) = hotpBody e (((currentCounter e nowMs : Nat) : Int) + i).toNat) ↔
      (parseDec s : Int) = hotpBody e (currentCounter e nowMs) := by
    constructor
    · rintro ⟨i, hi, hv⟩
      rw [mem_windowOffsets, hw] at hi
      have hz : i = 0 := by omega
      subst hz
      simpa using hv
    · intro hv
      refine ⟨0, (mem_windowOffsets _ _).mpr ⟨by omega, by omega⟩, ?_⟩
      simpa using hv
  by_cases hvv : (parseDec s : Int) = hotpBody e (currentCounter e nowMs)
  · rw [if_pos (hiff.mpr hvv)]
    exact ⟨⟨fun _ => hvv, fun _ => rfl⟩, fun hne => absurd hvv hne⟩
  · rw [if_neg (fun hx => hvv (hiff.mp hx))]
    refine ⟨⟨fun h => by simp at h, fun hv => absurd hv hvv⟩, fun _ => rfl⟩

theorem window_zero_exact_witness :
    (TOTP.verifyTOTP basicEngine 60000 (.str "602287") = .ok ⟨true, "TOTP verified"⟩ ↔
      (parseDec "602287" : Int) = hotpBody basicEngine (currentCounter basicEngine 60000)) ∧
    ((parseDec "602287" : Int) ≠ hotpBody basicEngine (currentCounter basicEngine 60000) →
      TOTP.verifyTOTP basicEngine 60000 (.str "602287") = .ok ⟨false, "Invalid TOTP"⟩) :=
  window_zero_exact basicEngine 60000 "602287" (by decide) (by decide) (by decide) (by decide)

/-! ## Claim C6 -/

theorem dropWhile_append_of_all {α : Type} {p : α → Bool} {l1 l2 : List α}
    (h : ∀ x ∈ l1, p x = true) :
    (l1 ++ l2).dropWhile p = l2.dropWhile p := by
  induction l1 with
  | nil => rfl
  | cons x xs ih =>
    rw [List.cons_append, List.dropWhile_cons_of_pos (h x (by simp))]
    exact ih (fun y hy => h y (by simp [hy]))

theorem dropWhile_of_all_pad {q : List Char} (h : ∀ c ∈ q, c = '=') :
    q.dropWhile isB32Char = q := by
  cases q with
  | nil => rfl
  | cons c rest =>
    have hc : c = '=' := h c (by simp)
    subst hc
    rw [List.dropWhile_cons_of_neg (by decide)]

theorem isValidSecret_iff (s : String) :
    TOTP.isValidSecret s = true ↔
      ∃ p q : List Char, s.data = p ++ q ∧ p ≠ [] ∧
        (∀ c ∈ p, isB32Char c = true) ∧ (∀ c ∈ q, c = '=') := by
  constructor
  · intro h
    rcases hsd : s.data with _ | ⟨c, rest⟩
    · rw [TOTP.isValidSecret, hsd] at h
      exact absurd h (by simp)
    · rw [TOTP.isValidSecret, hsd] at h
      simp only [Bool.and_eq_true, List.all_eq_true, beq_iff_eq] at h
      obtain ⟨h1, h2⟩ := h
      refine ⟨(c :: rest).takeWhile isB32Char, (c :: rest).dropWhile isB32Char,
        by rw [List.takeWhile_append_dropWhile], ?_, ?_, h2⟩
      · rw [List.takeWhile_cons_of_pos h1]
        simp
      · intro x hx
        exact List.mem_takeWhile_imp hx
  · rintro ⟨p, q, hsplit, hp, hpc, hqc⟩
    rcases p with _ | ⟨c, prest⟩
    · exact absurd rfl hp
    · rw [TOTP.isValidSecret, hsplit, List.cons_append]
      simp only [Bool.and_eq_true, List.all_eq_true, beq_iff_eq]
      have hc : isB32Char c = true := hpc c (by simp)
      refine ⟨hc, ?_⟩
      rw [List.dropWhile_cons_of_pos hc,
        dropWhile_append_of_all (fun y hy => hpc y (by simp [hy])),
        dropWhile_of_all_pad hqc]
      exact hqc

/-- C6: construction succeeds exactly when the secret text consists of one
or more characters from A-Z or 2-7 followed by zero or more padding
characters, and fails with InvalidSecretError otherwise; that error is
never produced by generation or verification; constructing with
not-base32!! fails and constructing with JBSWY3DPEHPK3PXP succeeds. -/
theorem secret_validation (secret : String) (w iv l : Nat) (a : HashAlg)
    (e : TOTPState) (nowMs : Nat) (inp : JSInput) :
    ((∃ st, TOTP.create secret w iv l a = .ok st) ↔
      ∃ p q : List Char, secret.data = p ++ q ∧ p ≠ [] ∧
        (∀ c ∈ p, isB32Char c = true) ∧ (∀ c ∈ q, c = '=')) ∧
    (TOTP.isValidSecret secret = false →
      TOTP.create secret w iv l a = .error .invalidSecret) ∧
    TOTP.generateTOTP e nowMs ≠ .error .invalidSecret ∧
    TOTP.verifyTOTP e nowMs inp ≠ .error .invalidSecret ∧
    TOTP.create "not-base32!!" w iv l a = .error .invalidSecret ∧
    (∃ st, TOTP.create "JBSWY3DPEHPK3PXP" w iv l a = .ok st) := by
  refine ⟨?_, ?_, ?_, ?_, ?_, ?_⟩
  · rw [← isValidSecret_iff]
    constructor
    · rintro ⟨st, hst⟩
      rcases hval : TOTP.isValidSecret secret with _ | _
      · rw [TOTP.create, if_neg (by simp [hval])] at hst
        exact absurd hst (by simp)
      · rfl
    · intro hv
      exact ⟨_, by rw [TOTP.create, if_pos hv]⟩
  · intro hfalse
    rw [TOTP.create, if_neg (by simp [hfalse])]
  · rw [TOTP.generateTOTP, TOTP._generateTOTP]
    split
    · simp
    · simp
  · cases inp with
    | nonString => simp [TOTP.verifyTOTP]
    | str s =>
      rw [TOTP.verifyTOTP]
      rcases hds : isDigitString s with _ | _
      · simp
      · simpa using verifyScan_no_invalidSecret e _ _ _
  · rw [TOTP.create, if_neg (by decide)]
  · exact ⟨_, by rw [TOTP.create, if_pos (by decide)]⟩

theorem secret_validation_witness :
    ((∃ st, TOTP.create "not-base32!!" 0 30 6 .sha1 = .ok st) ↔
      ∃ p q : List Char, "not-base32!!".data = p ++ q ∧ p ≠ [] ∧
        (∀ c ∈ p, isB32Char c = true) ∧ (∀ c ∈ q, c = '=')) ∧
    (TOTP.isValidSecret "not-base32!!" = false →
      TOTP.create "not-base32!!" 0 30 6 .sha1 = .error .invalidSecret) ∧
    TOTP.generateTOTP basicEngine 0 ≠ .error .invalidSecret ∧
    TOTP.verifyTOTP basicEngine 0 (.str "123456") ≠ .error .invalidSecret ∧
    TOTP.create "not-base32!!" 0 30 6 .sha1 = .error .invalidSecret ∧
    (∃ st, TOTP.create "JBSWY3DPEHPK3PXP" 0 30 6 .sha1 = .ok st) :=
  secret_validation "not-base32!!" 0 30 6 .sha1 basicEngine 0 (.str "123456")

/-! ## Claim C7 -/

/-- C7: verify raises a TypeError for any non-string input and any string
that is not one or more decimal digits, independently of the clock, and
never returns a verdict for such input; in particular for 12a3, the empty
string, and a null-like non-string value. -/
theorem malformed_input_rejected (e : TOTPState) (nowMs otherNowMs : Nat) (inp : JSInput)
    (hbad : inp = .nonString ∨ ∃ s, inp = .str s ∧ isDigitString s = false) :
    TOTP.verifyTOTP e nowMs inp = .error .typeError ∧
    TOTP.verifyTOTP e nowMs inp = TOTP.verifyTOTP e otherNowMs inp ∧
    (∀ r : VerifyResult, TOTP.verifyTOTP e nowMs inp ≠ .ok r) ∧
    TOTP.verifyTOTP e nowMs (.str "12a3") = .error .typeError ∧
    TOTP.verifyTOTP e nowMs (.str "") = .error .typeError ∧
    TOTP.verifyTOTP e nowMs .nonString = .error .typeError := by
  have hmain : ∀ t : Nat, TOTP.verifyTOTP e t inp = .error .typeError := by
    intro t
    rcases hbad with h | ⟨s, hs, hds⟩
    · subst h
      rfl
    · subst hs
      rw [TOTP.verifyTOTP]
      simp [hds]
  refine ⟨hmain nowMs, by rw [hmain nowMs, hmain otherNowMs], ?_, rfl, rfl, rfl⟩
  intro r hr
  rw [hmain nowMs] at hr
  exact Except.noConfusion hr

theorem malformed_input_rejected_witness :
    TOTP.verifyTOTP basicEngine 0 (.str "12a3") = .error .typeError ∧
    TOTP.verifyTOTP basicEngine 0 (.str "12a3") = TOTP.verifyTOTP basicEngine 1 (.str "12a3") ∧
    (∀ r : VerifyResult, TOTP.verifyTOTP basicEngine 0 (.str "12a3") ≠ .ok r) ∧
    TOTP.verifyTOTP basicEngine 0 (.str "12a3") = .error .typeError ∧
    TOTP.verifyTOTP basicEngine 0 (.str "") = .error .typeError ∧
    TOTP.verifyTOTP basicEngine 0 .nonString = .error .typeError :=
  malformed_input_rejected basicEngine 0 1 (.str "12a3")
    (Or.inr ⟨"12a3", rfl, by decide⟩)

/-! ## Claim C8 -/

/-- C8 counterexample: the constructor stores the secret TEXT unchanged in
the engine state (no decode at construction); the constructed state for
JBSWY3DPEHPK3PXP literally retains that text. -/
theorem constructor_stores_text :
    TOTP.create "JBSWY3DPEHPK3PXP" 0 30 6 .sha1 =
      .ok ⟨"JBSWY3DPEHPK3PXP", 0, 30, 6, .sha1⟩ := by decide

/-- C8 (amended): construction only validates; it retains the secret text,
not decoded bytes, and every derivation call (hence every generate and
every verify candidate) base32-decodes the stored text anew. -/
theorem construction_retains_text (secret : String) (w iv l : Nat) (a : HashAlg)
    (h : TOTP.isValidSecret secret = true) :
    TOTP.create secret w iv l a = .ok ⟨secret, w, iv, l, a⟩ ∧
    (∀ counter : Nat, hotpBody ⟨secret, w, iv, l, a⟩ counter =
      jsTruncate (hmacDigest a (base32DecodeBytes secret.data) (natBytesBE 8 counter)) l) := by
  constructor
  · rw [TOTP.create, if_pos h]
  · intro counter
    rfl

theorem construction_retains_text_witness :
    TOTP.create "JBSWY3DPEHPK3PXP" 0 30 6 .sha1 =
      .ok ⟨"JBSWY3DPEHPK3PXP", 0, 30, 6, .sha1⟩ ∧
    (∀ counter : Nat, hotpBody ⟨"JBSWY3DPEHPK3PXP", 0, 30, 6, .sha1⟩ counter =
      jsTruncate (hmacDigest .sha1 (base32DecodeBytes "JBSWY3DPEHPK3PXP".data)
        (natBytesBE 8 counter)) 6) :=
  construction_retains_text "JBSWY3DPEHPK3PXP" 0 30 6 .sha1 (by decide)

/-! ## Bit-list arithmetic -/

theorem bitsToNum_shift (t : List Bool) :
    ∀ a : Nat, t.foldl (fun x b => 2 * x + (if b then 1 else 0)) a
      = a * 2 ^ t.length + t.foldl (fun x b => 2 * x + (if b then 1 else 0)) 0 := by
  induction t with
  | nil => intro a; simp
  | cons b t ih =>
    intro a
    rw [List.foldl_cons, List.foldl_cons, ih (2 * a + (if b then 1 else 0)),
      ih (2 * 0 + (if b then 1 else 0))]
    rcases b with _ | _ <;> · simp only [List.length_cons, pow_succ]; ring

theorem bitsToNum_append (xs ys : List Bool) :
    bitsToNum (xs ++ ys) = bitsToNum xs * 2 ^ ys.length + bitsToNum ys := by
  simp only [bitsToNum, List.foldl_append]
  rw [bitsToNum_shift]

theorem bitsToNum_lt (bs : List Bool) : bitsToNum bs < 2 ^ bs.length := by
  induction bs with
  | nil => simp [bitsToNum]
  | cons b t ih =>
    have h := bitsToNum_append [b] t
    rw [List.singleton_append] at h
    have hb : bitsToNum [b] ≤ 1 := by rcases b with _ | _ <;> simp [bitsToNum]
    have hmul : bitsToNum [b] * 2 ^ t.length ≤ 1 * 2 ^ t.length :=
      Nat.mul_le_mul_right _ hb
    rw [h, List.length_cons, pow_succ]
    omega

theorem bitsToNum_replicate_false (m : Nat) : bitsToNum (List.replicate m false) = 0 := by
  induction m with
  | zero => rfl
  | succ m ih =>
    simp only [List.replicate_succ, bitsToNum, List.foldl_cons]
    simpa [bitsToNum] using ih

theorem numBits_length (k n : Nat) : (numBits k n).length = k := by
  simp [numBits]

theorem numBits_succ (k n : Nat) : numBits (k + 1) n = n.testBit k :: numBits k n := by
  rw [numBits, numBits, List.range_succ_eq_map, List.map_cons, List.map_map]
  refine congrArg₂ _ (by simp) (List.map_congr_left ?_)
  intro i _
  simp only [Function.comp_apply, Nat.succ_eq_add_one]
  congr 1
  omega

theorem numBits_mod (k n : Nat) : numBits k (n % 2 ^ k) = numBits k n := by
  rw [numBits, numBits]
  refine List.map_congr_left ?_
  intro i hi
  rw [List.mem_range] at hi
  rw [Nat.testBit_mod_two_pow]
  have h : k - 1 - i < k := by omega
  simp [h]

theorem bitsToNum_numBits (k n : Nat) : bitsToNum (numBits k n) = n % 2 ^ k := by
  induction k generalizing n with
  | zero => simp [numBits, bitsToNum, Nat.mod_one]
  | succ k ih =>
    rw [numBits_succ]
    have h := bitsToNum_append [n.testBit k] (numBits k n)
    rw [List.singleton_append] at h
    rw [h, numBits_length, ih, Nat.mod_pow_succ, Nat.testBit_to_div_mod]
    rcases Nat.mod_two_eq_zero_or_one (n / 2 ^ k) with hm | hm
    · rw [hm]
      simp [bitsToNum]
    · rw [hm]
      simp [bitsToNum]
      ring

/-! ## Chunking lemmas -/

theorem chunkGo_nil (n fuel : Nat) : chunkGo n fuel ([] : List α) = [] := by
  cases fuel <;> rfl

theorem chunkGo_fuel {n : Nat} (hn : 0 < n) :
    ∀ (fuel : Nat) (l : List α), l.length ≤ fuel → chunkGo n fuel l = chunkList n l := by
  intro fuel
  induction fuel using Nat.strong_induction_on with
  | _ fuel ih =>
    intro l hl
    cases l with
    | nil => rw [chunkGo_nil, chunkList, chunkGo_nil]
    | cons x xs =>
      obtain ⟨f, rfl⟩ : ∃ f, fuel = f + 1 := ⟨fuel - 1, by simp at hl; omega⟩
      show (x :: xs).take n :: chunkGo n f ((x :: xs).drop n) = chunkList n (x :: xs)
      rw [chunkList]
      show _ = (x :: xs).take n :: chunkGo n xs.length ((x :: xs).drop n)
      have hdl : ((x :: xs).drop n).length ≤ f := by
        simp only [List.length_drop, List.length_cons]
        simp at hl
        omega
      have hdl2 : ((x :: xs).drop n).length ≤ xs.length := by
        simp only [List.length_drop, List.length_cons]
        omega
      rw [ih f (by omega) _ hdl, ih xs.length (by simp at hl; omega) _ hdl2]

theorem chunkList_cons {n : Nat} (hn : 0 < n) (x : α) (xs : List α) :
    chunkList n (x :: xs) = (x :: xs).take n :: chunkList n ((x :: xs).drop n) := by
  rw [chunkList]
  show (x :: xs).take n :: chunkGo n xs.length ((x :: xs).drop n) = _
  congr 1
  refine chunkGo_fuel hn xs.length _ ?_
  simp only [List.length_drop, List.length_cons]
  omega

theorem chunkList_ne_nil_eq {n : Nat} (hn : 0 < n) (l : List α) (hl : l ≠ []) :
    chunkList n l = l.take n :: chunkList n (l.drop n) := by
  cases l with
  | nil => exact absurd rfl hl
  | cons x xs => exact chunkList_cons hn x xs

theorem chunkGo_length_le (n : Nat) :
    ∀ (fuel : Nat) (l : List α), ∀ g ∈ chunkGo n fuel l, g.length ≤ n := by
  intro fuel
  induction fuel with
  | zero =>
    intro l g hg
    simp [chunkGo] at hg
  | succ fuel ih =>
    intro l g hg
    cases l with
    | nil =>
      rw [chunkGo_nil] at hg
      simp at hg
    | cons x xs =>
      have hun : chunkGo n (fuel + 1) (x :: xs)
          = (x :: xs).take n :: chunkGo n fuel ((x :: xs).drop n) := rfl
      rw [hun] at hg
      rcases List.mem_cons.mp hg with h | h
      · subst h
        exact List.length_take_le _ _
      · exact ih _ g h

theorem chunkList_length_le (n : Nat) (l : List α) : ∀ g ∈ chunkList n l, g.length ≤ n :=
  chunkGo_length_le n l.length l

/-! ## Alphabet facts -/

theorem b32_char_facts : ∀ v : Nat, v < 32 →
    isB32Char (b32Char v) = true ∧ b32Char v ≠ '=' ∧ b32Val (b32Char v) = v := by decide

theorem b64_char_lt : ∀ v : Nat, v < 64 → (b64Char v).toNat < 256 := by decide

theorem gval_lt (k : Nat) (g : List Bool) (h : g.length ≤ k) :
    bitsToNum g * 2 ^ (k - g.length) < 2 ^ k := by
  have h1 : bitsToNum g < 2 ^ g.length := bitsToNum_lt g
  have h2 : bitsToNum g * 2 ^ (k - g.length) < 2 ^ g.length * 2 ^ (k - g.length) :=
    Nat.mul_lt_mul_of_pos_right h1 (Nat.two_pow_pos _)
  rw [← pow_add] at h2
  have h3 : g.length + (k - g.length) = k := by omega
  rw [h3] at h2
  exact h2

/-! ## Inverses of the bit-group maps -/

theorem numBits_bitsToNum (g : List Bool) : numBits g.length (bitsToNum g) = g := by
  induction g with
  | nil => rfl
  | cons b t ih =>
    have h := bitsToNum_append [b] t
    rw [List.singleton_append] at h
    rw [List.length_cons, numBits_succ, h]
    have hlt : bitsToNum t < 2 ^ t.length := bitsToNum_lt t
    have hhead : (bitsToNum [b] * 2 ^ t.length + bitsToNum t).testBit t.length = b := by
      rw [Nat.testBit_to_div_mod]
      have hdiv : (bitsToNum [b] * 2 ^ t.length + bitsToNum t) / 2 ^ t.length
          = bitsToNum [b] := by
        rw [Nat.mul_comm, Nat.mul_add_div (Nat.two_pow_pos _), Nat.div_eq_of_lt hlt,
          Nat.add_zero]
      rw [hdiv]
      rcases b with _ | _ <;> simp [bitsToNum]
    have htail : numBits t.length (bitsToNum [b] * 2 ^ t.length + bitsToNum t) = t := by
      rw [← numBits_mod]
      have hmod : (bitsToNum [b] * 2 ^ t.length + bitsToNum t) % 2 ^ t.length
          = bitsToNum t := by
        rw [Nat.mul_comm (bitsToNum [b]) (2 ^ t.length), Nat.mul_add_mod,
          Nat.mod_eq_of_lt hlt]
      rw [hmod]
      exact ih
    rw [hhead, htail]

theorem numBits_group (k : Nat) (g : List Bool) (h : g.length ≤ k) :
    numBits k (bitsToNum g * 2 ^ (k - g.length))
      = g ++ List.replicate (k - g.length) false := by
  have hval : bitsToNum (g ++ List.replicate (k - g.length) false)
      = bitsToNum g * 2 ^ (k - g.length) := by
    rw [bitsToNum_append, bitsToNum_replicate_false, List.length_replicate, Nat.add_zero]
  have hlen : (g ++ List.replicate (k - g.length) false).length = k := by
    simp only [List.length_append, List.length_replicate]
    omega
  have h2 := numBits_bitsToNum (g ++ List.replicate (k - g.length) false)
  rw [hlen, hval] at h2
  exact h2

/-! ## Decoding the encoded 5-bit groups recovers the bits (zero-padded) -/

theorem chunk5_decode (l : List Bool) :
    ((chunkList 5 l).map (fun g => b32Char (bitsToNum g * 2 ^ (5 - g.length)))).flatMap
        (fun c => numBits 5 (b32Val c))
      = l ++ List.replicate ((5 - l.length % 5) % 5) false := by
  suffices H : ∀ n (l : List Bool), l.length = n →
      ((chunkList 5 l).map (fun g => b32Char (bitsToNum g * 2 ^ (5 - g.length)))).flatMap
          (fun c => numBits 5 (b32Val c))
        = l ++ List.replicate ((5 - l.length % 5) % 5) false from H l.length l rfl
  intro n
  induction n using Nat.strong_induction_on with
  | _ n ih =>
    intro l hn
    cases l with
    | nil => rfl
    | cons x xs =>
      rw [chunkList_cons (by norm_num), List.map_cons, List.flatMap_cons]
      have htk : ((x :: xs).take 5).length ≤ 5 := List.length_take_le _ _
      have hval : b32Val (b32Char (bitsToNum ((x :: xs).take 5)
          * 2 ^ (5 - ((x :: xs).take 5).length)))
          = bitsToNum ((x :: xs).take 5) * 2 ^ (5 - ((x :: xs).take 5).length) :=
        (b32_char_facts _ (gval_lt 5 _ htk)).2.2
      rw [hval, numBits_group 5 _ htk]
      have hdlen : ((x :: xs).drop 5).length < n := by
        simp only [List.length_cons] at hn
        simp only [List.length_drop, List.length_cons]
        omega
      rw [ih _ hdlen _ rfl]
      by_cases hle : (x :: xs).length ≤ 5
      · have hdnil : (x :: xs).drop 5 = [] := List.drop_eq_nil_iff.mpr hle
        have htall : (x :: xs).take 5 = x :: xs := List.take_of_length_le hle
        have hcnt : (5 - (x :: xs).length % 5) % 5 = 5 - (x :: xs).length := by
          simp only [List.length_cons]
          simp only [List.length_cons] at hle
          omega
        rw [hdnil, htall, hcnt]
        simp only [List.length_nil, Nat.zero_mod, Nat.sub_zero, Nat.mod_self,
          List.replicate_zero, List.nil_append, List.append_nil, List.append_assoc]
      · have ht5 : ((x :: xs).take 5).length = 5 := by
          rw [List.length_take]
          simp only [List.length_cons] at hle ⊢
          omega
        have hcnt : (5 - ((x :: xs).drop 5).length % 5) % 5
            = (5 - (x :: xs).length % 5) % 5 := by
          simp only [List.length_drop, List.length_cons]
          simp only [List.length_cons] at hle
          omega
        rw [ht5, hcnt]
        simp only [Nat.sub_self, List.replicate_zero, List.append_nil, ← List.append_assoc,
          List.take_append_drop]

/-! ## Re-chunking into bytes -/

theorem length_flatMap_numBits (bytes : List Nat) :
    (bytes.flatMap (numBits 8)).length = 8 * bytes.length := by
  induction bytes with
  | nil => rfl
  | cons b t ih =>
    simp only [List.flatMap_cons, List.length_append, numBits_length, List.length_cons, ih]
    ring

theorem chunk8_drop_tail (l r : List Bool) (hl : l.length % 8 = 0) (hr : r.length < 8) :
    (chunkList 8 (l ++ r)).filterMap
        (fun g => if g.length = 8 then some (bitsToNum g) else none)
      = (chunkList 8 l).filterMap
        (fun g => if g.length = 8 then some (bitsToNum g) else none) := by
  suffices H : ∀ n (l r : List Bool), l.length = n → l.length % 8 = 0 → r.length < 8 →
      (chunkList 8 (l ++ r)).filterMap
          (fun g => if g.length = 8 then some (bitsToNum g) else none)
        = (chunkList 8 l).filterMap
          (fun g => if g.length = 8 then some (bitsToNum g) else none) from
    H l.length l r rfl hl hr
  intro n
  induction n using Nat.strong_induction_on with
  | _ n ih =>
    intro l r hn hl hr
    cases l with
    | nil =>
      rw [List.nil_append]
      cases r with
      | nil => rfl
      | cons c cs =>
        rw [chunkList_cons (by norm_num)]
        have htr : (c :: cs).take 8 = c :: cs :=
          List.take_of_length_le (by omega)
        have hdr : (c :: cs).drop 8 = [] := List.drop_eq_nil_iff.mpr (by omega)
        rw [htr, hdr]
        have hnone : (fun (g : List Bool) => if g.length = 8 then some (bitsToNum g) else none)
            (c :: cs) = none := by
          show (if (c :: cs).length = 8 then some (bitsToNum (c :: cs)) else none) = none
          have hne8 : ¬(c :: cs).length = 8 := by
            simp only [List.length_cons] at hr ⊢
            omega
          rw [if_neg hne8]
        rw [@List.filterMap_cons_none (List Bool) Nat
          (fun g => if g.length = 8 then some (bitsToNum g) else none)
          (c :: cs) (chunkList 8 []) hnone]
    | cons x xs =>
      have hlen8 : 8 ≤ (x :: xs).length := by
        simp only [List.length_cons] at hl ⊢
        omega
      rw [List.cons_append, chunkList_cons (by norm_num), chunkList_cons (by norm_num)]
      rw [← List.cons_append]
      have ht8 : ((x :: xs).take 8).length = 8 := by
        rw [List.length_take]
        omega
      have htke : ((x :: xs) ++ r).take 8 = (x :: xs).take 8 := by
        rw [List.take_append_of_le_length hlen8]
      have hdre : ((x :: xs) ++ r).drop 8 = (x :: xs).drop 8 ++ r := by
        rw [List.drop_append_of_le_length hlen8]
      rw [htke, hdre]
      have hsome : (fun (g : List Bool) => if g.length = 8 then some (bitsToNum g) else none)
          ((x :: xs).take 8) = some (bitsToNum ((x :: xs).take 8)) := by
        show (if ((x :: xs).take 8).length = 8
            then some (bitsToNum ((x :: xs).take 8)) else none)
          = some (bitsToNum ((x :: xs).take 8))
        rw [if_pos ht8]
      rw [@List.filterMap_cons_some (List Bool) Nat
          (fun g => if g.length = 8 then some (bitsToNum g) else none)
          ((x :: xs).take 8) (chunkList 8 ((x :: xs).drop 8 ++ r)) _ hsome,
        @List.filterMap_cons_some (List Bool) Nat
          (fun g => if g.length = 8 then some (bitsToNum g) else none)
          ((x :: xs).take 8) (chunkList 8 ((x :: xs).drop 8)) _ hsome]
      have hdl : ((x :: xs).drop 8).length < n := by
        simp only [List.length_cons] at hn
        simp only [List.length_drop, List.length_cons]
        omega
      have hdm : ((x :: xs).drop 8).length % 8 = 0 := by
        simp only [List.length_cons] at hl
        simp only [List.length_drop, List.length_cons]
        omega
      rw [ih _ hdl _ r rfl hdm hr]

theorem chunk8_of_bytes (bytes : List Nat) :
    chunkList 8 (bytes.flatMap (numBits 8)) = bytes.map (numBits 8) := by
  induction bytes with
  | nil => rfl
  | cons b t ih =>
    rw [List.flatMap_cons, List.map_cons]
    have h8 : (numBits 8 b).length = 8 := numBits_length 8 b
    have hne : numBits 8 b ++ t.flatMap (numBits 8) ≠ [] := by
      intro hcon
      have := congrArg List.length hcon
      simp only [List.length_append, h8, List.length_nil] at this
      omega
    rw [chunkList_ne_nil_eq (by norm_num) _ hne, List.take_left' h8, List.drop_left' h8, ih]

theorem filterMap_keep8 (bytes : List Nat) (hb : ∀ b ∈ bytes, b < 256) :
    (bytes.map (numBits 8)).filterMap
        (fun g => if g.length = 8 then some (bitsToNum g) else none) = bytes := by
  induction bytes with
  | nil => rfl
  | cons b t ih =>
    rw [List.map_cons]
    have hf : (fun (g : List Bool) => if g.length = 8 then some (bitsToNum g) else none)
        (numBits 8 b) = some b := by
      show (if (numBits 8 b).length = 8 then some (bitsToNum (numBits 8 b)) else none) = some b
      rw [if_pos (numBits_length 8 b), bitsToNum_numBits,
        Nat.mod_eq_of_lt (show b < 2 ^ 8 from hb b (by simp))]
    rw [@List.filterMap_cons_some (List Bool) Nat
        (fun g => if g.length = 8 then some (bitsToNum g) else none)
        (numBits 8 b) (t.map (numBits 8)) _ hf,
      ih (fun x hx => hb x (by simp [hx]))]

/-! ## The decode-encode round trip -/

theorem base32_roundtrip (bytes : List Nat) (hb : ∀ b ∈ bytes, b < 256) :
    base32DecodeBytes (base32Encode bytes) = bytes := by
  simp only [base32Encode, base32DecodeBytes]
  rw [List.filter_append]
  have hdata : (((chunkList 5 (bytes.flatMap (numBits 8))).map
      (fun g => b32Char (bitsToNum g * 2 ^ (5 - g.length)))).filter
        (fun c => decide (c ≠ '='))) =
      ((chunkList 5 (bytes.flatMap (numBits 8))).map
      (fun g => b32Char (bitsToNum g * 2 ^ (5 - g.length)))) := by
    rw [List.filter_eq_self]
    intro c hc
    obtain ⟨g, hg, rfl⟩ := List.mem_map.mp hc
    have hlt := gval_lt 5 g (chunkList_length_le 5 _ g hg)
    simpa using (b32_char_facts _ hlt).2.1
  have hpads : (List.replicate
      ((8 - ((chunkList 5 (bytes.flatMap (numBits 8))).map
        (fun g => b32Char (bitsToNum g * 2 ^ (5 - g.length)))).length % 8) % 8) '=').filter
        (fun c => decide (c ≠ '=')) = [] := by
    rw [List.filter_eq_nil_iff]
    intro c hc
    have := List.eq_of_mem_replicate hc
    simp [this]
  rw [hdata, hpads, List.append_nil, chunk5_decode]
  have hlen8 : (bytes.flatMap (numBits 8)).length % 8 = 0 := by
    rw [length_flatMap_numBits]
    omega
  have hrlt : (List.replicate
      ((5 - (bytes.flatMap (numBits 8)).length % 5) % 5) false).length < 8 := by
    rw [List.length_replicate]
    omega
  rw [chunk8_drop_tail _ _ hlen8 hrlt, chunk8_of_bytes, filterMap_keep8 bytes hb]

/-! ## Validity of encoded output -/

theorem base32Encode_valid (bytes : List Nat) (hb : bytes ≠ []) :
    TOTP.isValidSecret ⟨base32Encode bytes⟩ = true := by
  rw [isValidSecret_iff]
  refine ⟨(chunkList 5 (bytes.flatMap (numBits 8))).map
      (fun g => b32Char (bitsToNum g * 2 ^ (5 - g.length))), _, rfl, ?_, ?_, ?_⟩
  · have hbits : bytes.flatMap (numBits 8) ≠ [] := by
      intro hcon
      have := congrArg List.length hcon
      rw [length_flatMap_numBits] at this
      simp only [List.length_nil] at this
      exact hb (List.length_eq_zero.mp (by omega))
    rw [chunkList_ne_nil_eq (by norm_num) _ hbits]
    simp
  · intro c hc
    obtain ⟨g, hg, rfl⟩ := List.mem_map.mp hc
    exact (b32_char_facts _ (gval_lt 5 g (chunkList_length_le 5 _ g hg))).1
  · intro c hc
    exact List.eq_of_mem_replicate hc

theorem base64Encode_byte_lt (rb : List Nat) : ∀ c ∈ base64Encode rb, c.toNat < 256 := by
  intro c hc
  simp only [base64Encode] at hc
  rcases List.mem_append.mp hc with h | h
  · obtain ⟨g, hg, rfl⟩ := List.mem_map.mp h
    exact b64_char_lt _ (gval_lt 6 g (chunkList_length_le 6 _ g hg))
  · rw [List.eq_of_mem_replicate h]
    decide

theorem chunkList_ne_nil {n : Nat} (hn : 0 < n) (l : List α) (hl : l ≠ []) :
    chunkList n l ≠ [] := by
  rw [chunkList_ne_nil_eq hn l hl]
  simp

theorem flatMap_numBits_ne_nil (bytes : List Nat) (h : bytes ≠ []) :
    bytes.flatMap (numBits 8) ≠ [] := by
  intro hcon
  have hlen := congrArg List.length hcon
  rw [length_flatMap_numBits] at hlen
  simp only [List.length_nil] at hlen
  exact h (List.length_eq_zero.mp (by omega))

theorem base64Encode_ne_nil (rb : List Nat) (h : rb ≠ []) : base64Encode rb ≠ [] := by
  simp only [base64Encode]
  intro hcon
  rcases List.append_eq_nil.mp hcon with ⟨hdata, -⟩
  have hbits : rb.flatMap (numBits 8) ≠ [] := by
    intro hcon2
    have hlen := congrArg List.length hcon2
    rw [length_flatMap_numBits] at hlen
    simp only [List.length_nil] at hlen
    exact h (List.length_eq_zero.mp (by omega))
  exact chunkList_ne_nil (by norm_num) _ hbits (List.map_eq_nil_iff.mp hdata)

/-! ## Claim C9 -/

/-- C9 counterexample: for the all-zero 10-byte random outcome and no
label, generateSecret does NOT return the base32 encoding of the random
bytes themselves: the code base64-encodes the random bytes first and
base32-encodes the ASCII of that base64 text. -/
theorem generateSecret_cex :
    generateSecret (List.replicate 10 0) [] ≠ specGenerateSecret (List.replicate 10 0) [] := by
  decide

/-- C9 (amended): generateSecret returns the base32 encoding of the ASCII
bytes of the base64 text of the random bytes, followed by the label bytes;
decoding the returned secret recovers exactly those bytes (not the raw
random bytes). -/
theorem generateSecret_characterize (rb lb : List Nat) (hlb : ∀ b ∈ lb, b < 256) :
    generateSecret rb lb = specGenerateSecret ((base64Encode rb).map Char.toNat) lb ∧
    base32DecodeBytes (generateSecret rb lb).data
      = (base64Encode rb).map Char.toNat ++ lb := by
  refine ⟨rfl, ?_⟩
  show base32DecodeBytes (base32Encode ((base64Encode rb).map Char.toNat ++ lb)) = _
  refine base32_roundtrip _ ?_
  intro b hbm
  rcases List.mem_append.mp hbm with h | h
  · obtain ⟨c, hc, rfl⟩ := List.mem_map.mp h
    exact base64Encode_byte_lt rb c hc
  · exact hlb b h

theorem generateSecret_characterize_witness :
    generateSecret (List.replicate 10 0) [] =
        specGenerateSecret ((base64Encode (List.replicate 10 0)).map Char.toNat) [] ∧
    base32DecodeBytes (generateSecret (List.replicate 10 0) []).data
      = (base64Encode (List.replicate 10 0)).map Char.toNat ++ [] :=
  generateSecret_characterize (List.replicate 10 0) [] (by decide)

/-! ## Claim C10 -/

/-- C10: for any outcome of the random source with at least 10 bytes and
any label bytes, the text generateSecret returns passes the constructor's
validity check, so constructing an engine from it never raises
InvalidSecretError. -/
theorem generated_secret_constructs (rb lb : List Nat) (h : 10 ≤ rb.length)
    (w iv l : Nat) (a : HashAlg) :
    TOTP.isValidSecret (generateSecret rb lb) = true ∧
    (∃ st, TOTP.create (generateSecret rb lb) w iv l a = .ok st) ∧
    TOTP.create (generateSecret rb lb) w iv l a ≠ .error .invalidSecret := by
  have hrb : rb ≠ [] := by
    intro hcon
    rw [hcon] at h
    simp at h
  have hne : (base64Encode rb).map Char.toNat ++ lb ≠ [] := by
    intro hcon
    rcases List.append_eq_nil.mp hcon with ⟨hmap, -⟩
    exact base64Encode_ne_nil rb hrb (List.map_eq_nil_iff.mp hmap)
  have hv : TOTP.isValidSecret (generateSecret rb lb) = true := base32Encode_valid _ hne
  refine ⟨hv, ⟨_, by rw [TOTP.create, if_pos hv]⟩, ?_⟩
  rw [TOTP.create, if_pos hv]
  simp

theorem generated_secret_constructs_witness :
    TOTP.isValidSecret (generateSecret (List.replicate 10 0) []) = true ∧
    (∃ st, TOTP.create (generateSecret (List.replicate 10 0) []) 0 30 6 .sha1 = .ok st) ∧
    TOTP.create (generateSecret (List.replicate 10 0) []) 0 30 6 .sha1
      ≠ .error .invalidSecret :=
  generated_secret_constructs (List.replicate 10 0) [] (by decide) 0 30 6 .sha1
